import Mathlib

/-!
Verification of the fiscal code construction core of the furs-client-ts
repository. The TypeScript sources in src/utils/jwt.ts (code formatter and
JWT helpers), src/utils/certificate.ts and the code generator service are
shallowly embedded as Lean definitions below: JavaScript strings become
Lean strings (lists of unicode scalars), JavaScript BigInt arithmetic
becomes Nat arithmetic, thrown exceptions become Except values, and the
external crypto and JSON primitives become function parameters.
-/

/-! ## Character helpers (ASCII classes used by the JS regexes) -/

/-- Digit or lowercase-hex character for a value below 16, as produced by
JavaScript BigInt.prototype.toString with radix 10 or 16. -/
def digitChar (n : Nat) : Char :=
  Char.ofNat (if n < 10 then 48 + n else 87 + n)

/-- Test for an ASCII decimal digit, the JS regex class d. -/
def isDigitChar (c : Char) : Bool :=
  48 ≤ c.toNat && c.toNat ≤ 57

/-- Test for a character of the JS regex class [0-9a-fA-F]. -/
def isHexChar (c : Char) : Bool :=
  isDigitChar c || (97 ≤ c.toNat && c.toNat ≤ 102) || (65 ≤ c.toNat && c.toNat ≤ 70)

/-- Numeric value of a hexadecimal character (0 on any other input; the
embedded code only applies it to hexadecimal characters). -/
def hexCharVal (c : Char) : Nat :=
  if 48 ≤ c.toNat ∧ c.toNat ≤ 57 then c.toNat - 48
  else if 97 ≤ c.toNat ∧ c.toNat ≤ 102 then c.toNat - 87
  else if 65 ≤ c.toNat ∧ c.toNat ≤ 70 then c.toNat - 55
  else 0

/-- ASCII lower-casing, the behaviour of String.prototype.toLowerCase on
the ASCII inputs handled by this code. -/
def asciiToLower (c : Char) : Char :=
  if 65 ≤ c.toNat ∧ c.toNat ≤ 90 then Char.ofNat (c.toNat + 32) else c

/-- Map asciiToLower over a string. -/
def toLowerStr (s : String) : String :=
  String.mk (s.toList.map asciiToLower)

/-! ## Decimal and hexadecimal rendering of big integers

JavaScript BigInt values are arbitrary-precision integers; the code only
ever manipulates non-negative ones, embedded as Nat. The fuel-carrying
digit extractor below is structurally recursive so that every theorem
witness can be checked by kernel evaluation; it is proved equal to
Mathlib's Nat.digits. -/

/-- Least-significant-first base-b digits of n, with explicit fuel. -/
def natDigitsAux (b : Nat) : Nat → Nat → List Nat
  | 0, _ => []
  | _ + 1, 0 => []
  | fuel + 1, n + 1 => ((n + 1) % b) :: natDigitsAux b fuel ((n + 1) / b)

/-- Least-significant-first base-b digits of n (fuel instantiated). -/
def natDigits (b n : Nat) : List Nat :=
  natDigitsAux b n n

/-- Rendering of a Nat in base 10 or 16, the behaviour of
BigInt.prototype.toString(radix) and Number.prototype.toString(). -/
def natToString (base n : Nat) : String :=
  if n = 0 then "0" else String.mk (((natDigits base n).reverse).map digitChar)

/-- Decimal rendering, BigInt.toString(10) and Number.toString(). -/
def decimalString (n : Nat) : String := natToString 10 n

/-- Lowercase hexadecimal rendering, BigInt.toString(16). -/
def hexString (n : Nat) : String := natToString 16 n

/-- The value denoted by a hexadecimal string, the behaviour of
BigInt('0x' + s) on well-formed input. -/
def parseHexNat (s : String) : Nat :=
  s.toList.foldl (fun acc c => 16 * acc + hexCharVal c) 0

/-- The value denoted by a decimal digit string, the behaviour of
BigInt(s) on well-formed input. -/
def parseDecNat (s : String) : Nat :=
  s.toList.foldl (fun acc c => 10 * acc + (c.toNat - 48)) 0

/-! ## JavaScript string helpers used by the embedded code -/

/-- Model of String.prototype.padStart(len, c): left-pad to length len
(no-op when the string is already at least that long). -/
def jsPadStart (s : String) (len : Nat) (c : Char) : String :=
  String.mk (List.replicate (len - s.length) c) ++ s

/-- Model of String.prototype.slice(a, b) for 0 ≤ a ≤ b: the characters
at indices a to b-1, clamped to the string length. -/
def jsSlice (s : String) (a b : Nat) : String :=
  String.mk ((s.toList.drop a).take (b - a))

/-- Model of s.replace(/\s/g, ''): drop every whitespace character. -/
def stripWhitespace (s : String) : String :=
  String.mk (s.toList.filter (fun c => !c.isWhitespace))

/-! ## codeFormatter utilities (src/utils/jwt.ts, code formatter section) -/

/-- Translation of hexToDecimalPadded: strip whitespace and lower-case the
hex string, convert through BigInt to a decimal string, left-pad with
zeros to the target length. -/
def hexToDecimalPadded (hex : String) (targetLength : Nat) : String :=
  let cleanHex := toLowerStr (stripWhitespace hex)
  let decimal := decimalString (parseHexNat cleanHex)
  jsPadStart decimal targetLength '0'

/-- The calendar fields of a JavaScript Date value as observed through its
local-time getters, exactly the six getters formatDateForCode reads.
month0 is the 0-based getMonth() value. -/
structure JsDate where
  fullYear : Nat
  month0 : Nat
  day : Nat
  hours : Nat
  minutes : Nat
  seconds : Nat
deriving DecidableEq, Repr

/-- Model of String.prototype.slice(-2): the last two characters, or the
whole string when it is shorter than two characters. -/
def lastTwoChars (s : String) : String :=
  String.mk (s.toList.drop (s.length - 2))

/-- Translation of formatDateForCode: two-digit year (last two characters
of the year's decimal rendering), then zero-padded month, day, hours,
minutes and seconds. -/
def formatDateForCode (d : JsDate) : String :=
  lastTwoChars (decimalString d.fullYear) ++
  jsPadStart (decimalString (d.month0 + 1)) 2 '0' ++
  jsPadStart (decimalString d.day) 2 '0' ++
  jsPadStart (decimalString d.hours) 2 '0' ++
  jsPadStart (decimalString d.minutes) 2 '0' ++
  jsPadStart (decimalString d.seconds) 2 '0'

/-- Numeric value of an ASCII digit character, the value parseInt(c, 10)
takes on the digit characters this code feeds it. -/
def parseIntDigit (c : Char) : Nat := c.toNat - 48

/-- Sum of the digit values of a string of digit characters. -/
def digitSum (s : String) : Nat :=
  (s.toList.map parseIntDigit).sum

/-- Translation of calculateControlCharacter: sum the digits and render
the sum modulo 10. -/
def calculateControlCharacter (dataString : String) : String :=
  decimalString (digitSum dataString % 10)

/-- Translation of formatCodeData: 39-digit decimal ZOI, 8-digit
zero-padded tax number, 12-digit date, then the control character. -/
def formatCodeData (zoi : String) (taxNumber : Nat) (issueDateTime : JsDate) : String :=
  let zoiDecimal := hexToDecimalPadded zoi 39
  let taxNumberStr := jsPadStart (decimalString taxNumber) 8 '0'
  let dateTimeStr := formatDateForCode issueDateTime
  let dataWithoutControl := zoiDecimal ++ taxNumberStr ++ dateTimeStr
  let controlChar := calculateControlCharacter dataWithoutControl
  dataWithoutControl ++ controlChar

/-- Translation of validateZOI, the regex test [0-9a-fA-F] of length
exactly 32. -/
def validateZOI (zoi : String) : Bool :=
  zoi.length == 32 && zoi.toList.all isHexChar

/-- Translation of validateTaxNumber: the decimal rendering of the number
must match the regex d-eight-times. -/
def validateTaxNumber (taxNumber : Nat) : Bool :=
  let str := decimalString taxNumber
  str.length == 8 && str.toList.all isDigitChar

/-! ## splitForCode128 (src/utils/jwt.ts) -/

/-- The switch table of splitForCode128: per-part total length and prefix
literal for each supported part count. -/
def code128Table (parts : Nat) : Option (Nat × String) :=
  match parts with
  | 2 => some (30, "4")
  | 3 => some (20, "4")
  | 4 => some (15, "44")
  | 5 => some (12, "4")
  | 6 => some (10, "4")
  | _ => none

/-- Translation of splitForCode128: validate the part count and payload
length, look up the table, and emit prefix + sequence number + data slice
for each part. Thrown errors become Except.error of the thrown message. -/
def splitForCode128 (codeData : String) (parts : Nat) : Except String (List String) :=
  if parts < 2 ∨ parts > 6 then
    Except.error "Number of parts must be between 2 and 6"
  else if codeData.length ≠ 60 then
    Except.error "Code data must be exactly 60 digits"
  else
    match code128Table parts with
    | none => Except.error "Invalid number of parts"
    | some (dataPerPart, pfx) =>
      let prefixLength := pfx.length + 1
      let actualDataPerPart := dataPerPart - prefixLength
      Except.ok ((List.range parts).map (fun i =>
        pfx ++ decimalString (i + 1) ++
          jsSlice codeData (i * actualDataPerPart) (i * actualDataPerPart + actualDataPerPart)))

/-! ## Concrete test vectors from the FURS specification -/

/-- First reference ZOI from the spec's test vectors. -/
def zoiHex1 : String := "a7e5f55e1dbb48b799268e1a6d8618a3"

/-- Second reference ZOI from the spec's test vectors. -/
def zoiHex2 : String := "3024e56bf1ddd2e7eeb5715c6859a913"

/-- The reference timestamp 2015-08-15T10:13:32 (local time fields). -/
def date2015 : JsDate :=
  { fullYear := 2015, month0 := 7, day := 15, hours := 10, minutes := 13, seconds := 32 }

/-- The 60-digit payload the spec expects for the first test vector. -/
def expectedPayload1 : String :=
  "223175087923687075112234402528973166755123456781508151013321"

/-! ## The code generator entry point (code generator service) -/

/-- Error kinds thrown by FursCodeGenerator.generateCode input validation:
the spec's InvalidZoiError and InvalidTaxNumberError. -/
inductive FursCodeError where
  | invalidZoi
  | invalidTaxNumber
deriving DecidableEq, Repr

/-- Translation of the validation prelude of FursCodeGenerator.generateCode
followed by formatCodeData: ZOI format is checked first, then the tax
number, and only then is the payload built. -/
def generateCode (zoi : String) (taxNumber : Nat) (d : JsDate) : Except FursCodeError String :=
  if !(validateZOI zoi) then Except.error FursCodeError.invalidZoi
  else if !(validateTaxNumber taxNumber) then Except.error FursCodeError.invalidTaxNumber
  else Except.ok (formatCodeData zoi taxNumber d)

/-- The condition of the spec's regex for a ZOI: exactly 32 characters of
the class [0-9a-fA-F]. -/
def zoiRegexMatches (zoi : String) : Prop :=
  zoi.length = 32 ∧ ∀ c ∈ zoi.toList, isHexChar c = true

instance (zoi : String) : Decidable (zoiRegexMatches zoi) := by
  unfold zoiRegexMatches
  infer_instance

/-! ## Claim C6: which validation error generateCode raises -/

deriving instance DecidableEq for Except

/-! ## Claim C1: rejoining the Code128 data slices -/

/-- Length of the prefix-plus-sequence-digit header of an emitted part,
derived from the switch table. -/
def code128HeaderLen (parts : Nat) : Nat :=
  match code128Table parts with
  | some (_, pfx) => pfx.length + 1
  | none => 0

/-- Concatenation, in emission order, of the data slices of the emitted
parts: each part with its prefix and single sequence digit removed. -/
def joinedDataSlices (codeData : String) (parts : Nat) : Option String :=
  (splitForCode128 codeData parts).toOption.map (fun ps =>
    String.join (ps.map (fun p => String.mk (p.toList.drop (code128HeaderLen parts)))))

/-! ## Claim C4: hex-decimal round trip of hexToDecimalPadded -/

/-- Test for a lowercase hexadecimal character [0-9a-f]. -/
def isLowerHexChar (c : Char) : Bool :=
  isDigitChar c || (97 ≤ c.toNat && c.toNat ≤ 102)

/-! ## Claim C5: certificate subject identity string
(src/utils/certificate.ts, getCertificateInfo, subject part) -/

/-- One parsed X.509 subject attribute as node-forge exposes it: the
short name, the dotted OID in the field named type, and the value. -/
structure SubjectAttr where
  shortName : String
  typeOid : String
  value : String
deriving DecidableEq, Repr

/-- Translation of value.replace of every comma by backslash-comma. -/
def escapeCommas (v : String) : String :=
  String.mk (v.toList.flatMap (fun ch => if ch = ',' then ['\\', ','] else [ch]))

/-- Translation of the subject part of getCertificateInfo: push CN (with
comma escaping), the literal placeholder for OID 2.5.4.5, the
DavPotRacTEST OU, the numeric OU, O and C, each only when present, then
join with commas. -/
def getCertificateSubjectName (attrs : List SubjectAttr) : String :=
  let parts0 : List String := []
  let cn := attrs.find? (fun a => a.shortName == "CN" || a.typeOid == "2.5.4.3")
  let parts1 := match cn with
    | some a => parts0 ++
        [if a.value.toList.contains ',' then "CN=" ++ escapeCommas a.value
         else "CN=" ++ a.value]
    | none => parts0
  let serialAttr := attrs.find? (fun a => a.typeOid == "2.5.4.5")
  let parts2 := match serialAttr with
    | some _ => parts1 ++ ["2.5.4.5=#1"]
    | none => parts1
  let ouAttrs := attrs.filter (fun a => a.shortName == "OU" || a.typeOid == "2.5.4.11")
  let davPotRac := ouAttrs.find? (fun a => a.value == "DavPotRacTEST")
  let taxNumberOU := ouAttrs.find? (fun a => !a.value.isEmpty && a.value.toList.all isDigitChar)
  let parts3 := match davPotRac with
    | some a => parts2 ++ ["OU=" ++ a.value]
    | none => parts2
  let parts4 := match taxNumberOU with
    | some a => parts3 ++ ["OU=" ++ a.value]
    | none => parts3
  let o := attrs.find? (fun a => a.shortName == "O" || a.typeOid == "2.5.4.10")
  let parts5 := match o with
    | some a => parts4 ++ ["O=" ++ a.value]
    | none => parts4
  let c := attrs.find? (fun a => a.shortName == "C" || a.typeOid == "2.5.4.6")
  let parts6 := match c with
    | some a => parts5 ++ ["C=" ++ a.value]
    | none => parts5
  String.intercalate "," parts6

/-- Comma escaping as the claim words it: every comma in the value is
replaced by a backslash followed by a comma. -/
def specEscapeValue (v : String) : String :=
  String.mk (v.toList.foldr (fun ch acc => if ch = ',' then '\\' :: ',' :: acc else ch :: acc) [])

/-- The singleton entry contributed by a present attribute, nothing for
an absent one. -/
def optionEntry {α : Type} (o : Option α) (f : α → String) : List String :=
  match o with
  | some a => [f a]
  | none => []

/-- The claim's description of the subject identity string: the
comma-join of exactly the present attributes in the fixed order CN
(comma-escaped), the literal placeholder for OID 2.5.4.5, the OU equal to
the device-class marker, the purely numeric OU, O, then C. -/
def subjectNameSpec (attrs : List SubjectAttr) : String :=
  String.intercalate "," (
    optionEntry (attrs.find? (fun a => a.shortName == "CN" || a.typeOid == "2.5.4.3"))
      (fun a => "CN=" ++ specEscapeValue a.value) ++
    optionEntry (attrs.find? (fun a => a.typeOid == "2.5.4.5")) (fun _ => "2.5.4.5=#1") ++
    optionEntry ((attrs.filter (fun a => a.shortName == "OU" || a.typeOid == "2.5.4.11")).find?
      (fun a => a.value == "DavPotRacTEST")) (fun a => "OU=" ++ a.value) ++
    optionEntry ((attrs.filter (fun a => a.shortName == "OU" || a.typeOid == "2.5.4.11")).find?
      (fun a => !a.value.isEmpty && a.value.toList.all isDigitChar)) (fun a => "OU=" ++ a.value) ++
    optionEntry (attrs.find? (fun a => a.shortName == "O" || a.typeOid == "2.5.4.10"))
      (fun a => "O=" ++ a.value) ++
    optionEntry (attrs.find? (fun a => a.shortName == "C" || a.typeOid == "2.5.4.6"))
      (fun a => "C=" ++ a.value))

/-! ## Claim C7: decodeJWT returns structured failures
(src/utils/jwt.ts, decodeJWT). The base64url decoding primitive and
JSON.parse are taken as parameters; each may fail with a message, which
models the exceptions the try block can observe. -/

/-- The record decodeJWT returns; the TypeScript failure branch fills the
header and payload with empty placeholder objects, modelled as none. -/
structure JWTDecoded (α : Type) where
  header : Option α
  payload : Option α
  signature : String
  valid : Bool
  error : Option String
deriving Repr

/-- The body of decodeJWT's try block: split on dots, require exactly 3
segments (the thrown Error becomes Except.error of its message), then
decode and JSON-parse the header and payload segments in the code's
order. -/
def decodeJWTBody {α : Type} (dec : String → Except String String)
    (parseJson : String → Except String α) (jwt : String) :
    Except String (α × α × String) :=
  let parts := jwt.splitOn "."
  if parts.length ≠ 3 then Except.error "Invalid JWT format - should have 3 parts"
  else
    match dec (parts.getD 0 "") with
    | Except.error e => Except.error e
    | Except.ok headerStr =>
      match parseJson headerStr with
      | Except.error e => Except.error e
      | Except.ok header =>
        match dec (parts.getD 1 "") with
        | Except.error e => Except.error e
        | Except.ok payloadStr =>
          match parseJson payloadStr with
          | Except.error e => Except.error e
          | Except.ok payload => Except.ok (header, payload, parts.getD 2 "")

/-- Translation of decodeJWT: the catch wrapper turns any failure of the
body into a structured result with valid set to false and the failure
reason in the error field. -/
def decodeJWT {α : Type} (dec : String → Except String String)
    (parseJson : String → Except String α) (jwt : String) : JWTDecoded α :=
  match decodeJWTBody dec parseJson jwt with
  | Except.ok (h, p, s) =>
    { header := some h, payload := some p, signature := s, valid := true, error := none }
  | Except.error e =>
    { header := none, payload := none, signature := "", valid := false, error := some e }

/-! ## Claims C9 and C10: base64url and UTF-8 primitives
(src/utils/jwt.ts, base64urlEncode / base64urlDecode / createJWT).
Buffer.from(s, 'utf8'), Buffer.toString('base64') and their inverses are
modelled concretely: UTF-8 encoding of unicode scalar values and standard
base64 with trailing padding. -/

/-- The base64 alphabet in index order. -/
def base64Alphabet : List Char :=
  "ABCDEFGHIJKLMNOPQRSTUVWXYZabcdefghijklmnopqrstuvwxyz0123456789+/".toList

/-- Character for a sextet value. -/
def b64Char (n : Nat) : Char := base64Alphabet.getD n 'A'

/-- Sextet value of a base64 character (the alphabet index). -/
def b64CharVal (c : Char) : Nat := base64Alphabet.findIdx (fun d => d == c)

/-- Standard base64 encoding of a byte list, with trailing padding, the
behaviour of Buffer.toString('base64'). -/
def b64EncodeBytes : List Nat → List Char
  | [] => []
  | [a] => [b64Char (a / 4), b64Char (a % 4 * 16), '=', '=']
  | [a, b] => [b64Char (a / 4), b64Char (a % 4 * 16 + b / 16), b64Char (b % 16 * 4), '=']
  | a :: b :: c :: rest =>
    b64Char (a / 4) :: b64Char (a % 4 * 16 + b / 16) :: b64Char (b % 16 * 4 + c / 64) ::
      b64Char (c % 64) :: b64EncodeBytes rest

/-- Standard base64 decoding of a well-formed padded character list, the
behaviour of Buffer.from(-, 'base64') on the strings this code feeds it. -/
def b64DecodeChars : List Char → List Nat
  | a :: b :: c :: d :: rest =>
    if c = '=' then [b64CharVal a * 4 + b64CharVal b / 16]
    else if d = '=' then
      [b64CharVal a * 4 + b64CharVal b / 16, b64CharVal b % 16 * 16 + b64CharVal c / 4]
    else
      (b64CharVal a * 4 + b64CharVal b / 16) :: (b64CharVal b % 16 * 16 + b64CharVal c / 4) ::
        (b64CharVal c % 4 * 64 + b64CharVal d) :: b64DecodeChars rest
  | _ => []

/-- UTF-8 encoding of one unicode scalar value (1 to 4 bytes). -/
def utf8EncodeChar (c : Char) : List Nat :=
  if c.toNat < 128 then [c.toNat]
  else if c.toNat < 2048 then [192 + c.toNat / 64, 128 + c.toNat % 64]
  else if c.toNat < 65536 then
    [224 + c.toNat / 4096, 128 + c.toNat / 64 % 64, 128 + c.toNat % 64]
  else
    [240 + c.toNat / 262144, 128 + c.toNat / 4096 % 64, 128 + c.toNat / 64 % 64, 128 + c.toNat % 64]

/-- UTF-8 encoding of a string, the behaviour of Buffer.from(s, 'utf8')
on well-formed strings. -/
def utf8Encode (s : String) : List Nat := s.toList.flatMap utf8EncodeChar

/-- UTF-8 decoding of a byte list back to scalar values, the behaviour of
Buffer.toString('utf8') on well-formed encodings (continuation bytes are
read positionally; malformed tails are out of the modelled domain). -/
def utf8DecodeCodepoints : List Nat → List Nat
  | [] => []
  | b1 :: rest =>
    if b1 < 128 then b1 :: utf8DecodeCodepoints rest
    else if b1 < 224 then
      ((b1 - 192) * 64 + (rest.headD 0 - 128)) :: utf8DecodeCodepoints (rest.drop 1)
    else if b1 < 240 then
      ((b1 - 224) * 4096 + (rest.headD 0 - 128) * 64 + ((rest.drop 1).headD 0 - 128)) ::
        utf8DecodeCodepoints (rest.drop 2)
    else
      ((b1 - 240) * 262144 + (rest.headD 0 - 128) * 4096 + ((rest.drop 1).headD 0 - 128) * 64 +
        ((rest.drop 2).headD 0 - 128)) :: utf8DecodeCodepoints (rest.drop 3)
termination_by l => l.length
decreasing_by
  all_goals simp only [List.length_drop, List.length_cons]
  all_goals omega

/-- Bytes back to a string. -/
def utf8DecodeString (bytes : List Nat) : String :=
  String.mk ((utf8DecodeCodepoints bytes).map Char.ofNat)

/-- The three global replacements of base64urlEncode applied to a base64
character list: plus to minus, slash to underscore, drop the padding. -/
def base64ToUrlChars (l : List Char) : List Char :=
  ((l.map (fun c => if c = '+' then '-' else c)).map
    (fun c => if c = '/' then '_' else c)).filter (fun c => !(c == '='))

/-- Base64url encoding of raw bytes: base64, then the three global
replacements (used for the signature bytes in createJWT). -/
def base64urlEncodeBytes (bytes : List Nat) : String :=
  String.mk (base64ToUrlChars (b64EncodeBytes bytes))

/-- Translation of base64urlEncode on string input: UTF-8 bytes, base64,
then the plus, slash and padding replacements. -/
def base64urlEncode (s : String) : String :=
  base64urlEncodeBytes (utf8Encode s)

/-- Translation of base64urlDecode: recompute padding as (4 - len mod 4)
mod 4 equal signs, undo the minus and underscore replacements, base64
decode and read the bytes as UTF-8. -/
def base64urlDecode (data : String) : String :=
  let padding := 4 - data.length % 4
  let paddedData := data ++ String.mk (List.replicate (padding % 4) '=')
  let unmapped := (paddedData.toList.map (fun c => if c = '-' then '+' else c)).map
    (fun c => if c = '_' then '/' else c)
  utf8DecodeString (b64DecodeChars unmapped)

/-! ## Claim C9: createJWT (src/utils/jwt.ts). The RSA-SHA256 signing
primitive (RSASSA-PKCS1-v1_5, deterministic by specification) is a
function parameter from the signing input to the raw signature bytes;
JSON.stringify on the fixed four-field header object is modelled with
JavaScript's string escaping and insertion-order keys. -/

/-- The certificate identity fields carried in the JWS header. -/
structure CertificateInfo where
  subject_name : String
  issuer_name : String
  serial : String
deriving DecidableEq, Repr

/-- JSON.stringify escaping of one character in a string literal. -/
def escJsonChar (c : Char) : List Char :=
  if c = '"' then ['\\', '"']
  else if c = '\\' then ['\\', '\\']
  else if c.toNat = 8 then ['\\', 'b']
  else if c.toNat = 9 then ['\\', 't']
  else if c.toNat = 10 then ['\\', 'n']
  else if c.toNat = 12 then ['\\', 'f']
  else if c.toNat = 13 then ['\\', 'r']
  else if c.toNat < 32 then
    ['\\', 'u', '0', '0', digitChar (c.toNat / 16), digitChar (c.toNat % 16)]
  else [c]

/-- A JSON string literal for s, quotes included. -/
def jsonQuote (s : String) : String :=
  "\"" ++ String.mk (s.toList.flatMap escJsonChar) ++ "\""

/-- JSON.stringify of the JWS header object with its four fields in
insertion order: alg, subject_name, issuer_name, serial. -/
def stringifyHeader (ci : CertificateInfo) : String :=
  "\x7b" ++ jsonQuote "alg" ++ ":" ++ jsonQuote "RS256" ++ "," ++
  jsonQuote "subject_name" ++ ":" ++ jsonQuote ci.subject_name ++ "," ++
  jsonQuote "issuer_name" ++ ":" ++ jsonQuote ci.issuer_name ++ "," ++
  jsonQuote "serial" ++ ":" ++ jsonQuote ci.serial ++ "\x7d"

/-- Translation of createJWT: build the header from the certificate
identity, base64url-encode header and payload JSON, sign the dot-joined
signing input, base64url-encode the raw signature bytes by character
code, and join the three segments with dots. -/
def createJWT (sign : String → List Nat) (payloadJson : String) (ci : CertificateInfo) : String :=
  let encodedHeader := base64urlEncode (stringifyHeader ci)
  let encodedPayload := base64urlEncode payloadJson
  let signingInput := encodedHeader ++ "." ++ encodedPayload
  let signature := sign signingInput
  let encodedSignature := base64urlEncodeBytes signature
  signingInput ++ "." ++ encodedSignature

/-- A concrete deterministic signing stub for the witness. -/
def zeroSigner : String → List Nat := fun _ => []

/-- A concrete certificate identity for the witness. -/
def sampleCertInfo : CertificateInfo :=
  { subject_name := "CN=Test", issuer_name := "CN=CA", serial := "1" }

/-! ## Basic lemmas about the character and digit helpers -/

theorem char_toNat_ofNat {n : Nat} (h : n < 55296) : (Char.ofNat n).toNat = n := by
  have hv : n.isValidChar := Or.inl h
  simp only [Char.ofNat, dif_pos hv, Char.ofNatAux, Char.toNat]
  rfl

theorem char_eq_of_toNat {c d : Char} (h : c.toNat = d.toNat) : c = d :=
  Char.ext (UInt32.ext h)

theorem digitChar_toNat {n : Nat} (h : n < 16) :
    (digitChar n).toNat = if n < 10 then 48 + n else 87 + n := by
  unfold digitChar
  split <;> rw [char_toNat_ofNat (by omega)]

theorem isDigitChar_digitChar {n : Nat} (h : n < 10) : isDigitChar (digitChar n) = true := by
  simp [isDigitChar, digitChar_toNat (by omega : n < 16), h]
  omega

theorem hexCharVal_lt (c : Char) : hexCharVal c < 16 := by
  unfold hexCharVal
  split <;> [omega; skip]
  split <;> [omega; skip]
  split <;> omega

theorem hexCharVal_digitChar {n : Nat} (h : n < 16) : hexCharVal (digitChar n) = n := by
  unfold hexCharVal
  rw [digitChar_toNat h]
  split_ifs <;> omega

/-! ## The fuel-based digit extractor agrees with Nat.digits -/

theorem natDigitsAux_eq_digits (b : Nat) (hb : 2 ≤ b) :
    ∀ fuel n, n ≤ fuel → natDigitsAux b fuel n = Nat.digits b n := by
  intro fuel
  induction fuel with
  | zero =>
    intro n hn
    have : n = 0 := by omega
    subst this
    simp [natDigitsAux]
  | succ f ih =>
    intro n hn
    match n with
    | 0 => simp [natDigitsAux]
    | m + 1 =>
      rw [natDigitsAux, Nat.digits_def' (by omega : 1 < b) (Nat.succ_pos m)]
      congr 1
      apply ih
      have hdiv := Nat.div_lt_self (Nat.succ_pos m) (show 1 < b by omega)
      exact Nat.le_of_lt_succ (Nat.lt_of_lt_of_le hdiv hn)

theorem natDigits_eq_digits {b : Nat} (hb : 2 ≤ b) (n : Nat) :
    natDigits b n = Nat.digits b n :=
  natDigitsAux_eq_digits b hb n n (Nat.le_refl n)

theorem natToString_eq {base n : Nat} (hb : 2 ≤ base) (hn : n ≠ 0) :
    natToString base n = String.mk (((Nat.digits base n).reverse).map digitChar) := by
  rw [natToString, if_neg hn, natDigits_eq_digits hb]

theorem natToString_length {base n : Nat} (hb : 2 ≤ base) (hn : n ≠ 0) :
    (natToString base n).length = (Nat.digits base n).length := by
  rw [natToString_eq hb hn]
  simp

/-- Every number below base to the k has at most k digits. -/
theorem digits_length_le {b k m : Nat} (hb : 1 < b) (h : m < b ^ k) :
    (Nat.digits b m).length ≤ k := by
  rcases Nat.eq_zero_or_pos m with rfl | hm
  · simp
  · have h1 := Nat.base_pow_length_digits_le b m hb (by omega)
    have h2 : b ^ (Nat.digits b m).length < b ^ (k + 1) := by
      calc b ^ (Nat.digits b m).length ≤ b * m := h1
        _ < b * b ^ k := by exact Nat.mul_lt_mul_of_pos_left h (by omega)
        _ = b ^ (k + 1) := by ring
    have h3 := (Nat.pow_lt_pow_iff_right hb).mp h2
    omega

/-! ## Fold-based parsing as Nat.ofDigits -/

theorem foldl_mul_add_eq_ofDigits (b : Nat) (f : Char → Nat) (l : List Char) (a : Nat) :
    l.foldl (fun acc c => b * acc + f c) a =
      Nat.ofDigits b ((l.map f).reverse) + a * b ^ l.length := by
  induction l generalizing a with
  | nil => simp [Nat.ofDigits_nil]
  | cons c t ih =>
    rw [List.foldl_cons, ih (b * a + f c)]
    simp only [List.map_cons, List.reverse_cons, Nat.ofDigits_append,
      Nat.ofDigits_singleton, List.length_reverse, List.length_map, List.length_cons]
    ring

theorem parseHexNat_eq_ofDigits (s : String) :
    parseHexNat s = Nat.ofDigits 16 ((s.toList.map hexCharVal).reverse) := by
  rw [parseHexNat, foldl_mul_add_eq_ofDigits]
  simp

theorem parseHexNat_lt (s : String) : parseHexNat s < 16 ^ s.length := by
  rw [parseHexNat_eq_ofDigits]
  have h := Nat.ofDigits_lt_base_pow_length (b := 16) (l := (s.toList.map hexCharVal).reverse)
    (by omega) (by intro x hx; simp only [List.mem_reverse, List.mem_map] at hx
                   obtain ⟨c, _, rfl⟩ := hx; exact hexCharVal_lt c)
  simpa using h

/-! ## Length helpers for strings -/

theorem jsSlice_length (s : String) (a b : Nat) :
    (jsSlice s a b).length = min (b - a) (s.toList.length - a) := by
  simp [jsSlice, List.length_take, List.length_drop]

theorem jsPadStart_length (s : String) (len : Nat) (c : Char) :
    (jsPadStart s len c).length = max len s.length := by
  simp [jsPadStart]
  omega

/-! ## Digit facts about the renderings -/

theorem decimalString_all_digits (n : Nat) :
    ∀ c ∈ (decimalString n).toList, isDigitChar c = true := by
  intro c hc
  by_cases hn : n = 0
  · subst hn
    simp only [decimalString, natToString, if_pos rfl] at hc
    have : c = '0' := by simpa using hc
    subst this
    decide
  · rw [decimalString, natToString_eq (by omega) hn] at hc
    have hc2 : c ∈ ((Nat.digits 10 n).reverse).map digitChar := hc
    rw [List.mem_map] at hc2
    obtain ⟨d, hd, rfl⟩ := hc2
    rw [List.mem_reverse] at hd
    exact isDigitChar_digitChar (Nat.digits_lt_base (by omega) hd)

theorem validateZOI_iff (zoi : String) : validateZOI zoi = true ↔ zoiRegexMatches zoi := by
  simp [validateZOI, zoiRegexMatches, List.all_eq_true]

theorem validateTaxNumber_iff (n : Nat) :
    validateTaxNumber n = true ↔ (decimalString n).length = 8 := by
  simp only [validateTaxNumber, Bool.and_eq_true, beq_iff_eq, List.all_eq_true]
  constructor
  · rintro ⟨h, _⟩
    exact h
  · intro h
    exact ⟨h, fun c hc => decimalString_all_digits n c hc⟩

/-! ## Claim C3: concrete test vectors -/

/-- C3: on the spec's reference inputs (ZOI a7e5f55e1dbb48b799268e1a6d8618a3,
tax number 12345678, timestamp 2015-08-15T10:13:32) formatCodeData returns
exactly the expected 60-digit payload with decimal ZOI
223175087923687075112234402528973166755 and checksum digit 1, and on the
second reference ZOI 3024e56bf1ddd2e7eeb5715c6859a913 the decimal ZOI is
063994519708649896901260100447252359443 and the checksum digit is 0. -/
theorem formatCodeData_test_vectors :
    hexToDecimalPadded zoiHex1 39 = "223175087923687075112234402528973166755" ∧
    formatCodeData zoiHex1 12345678 date2015 =
      "223175087923687075112234402528973166755123456781508151013321" ∧
    hexToDecimalPadded zoiHex2 39 = "063994519708649896901260100447252359443" ∧
    (formatCodeData zoiHex2 12345678 date2015).toList.getLast? = some '0' := by
  decide

/-- C6 counterexample: with both inputs invalid (empty ZOI, tax number 0)
the code raises InvalidZoiError even though the tax number also fails its
condition, so raising InvalidTaxNumberError is not equivalent to the tax
number being malformed. -/
theorem generateCode_zoi_checked_first :
    generateCode "" 0 date2015 = Except.error FursCodeError.invalidZoi ∧
    (decimalString 0).length ≠ 8 ∧
    generateCode "" 0 date2015 ≠ Except.error FursCodeError.invalidTaxNumber := by
  decide

/-- C6 amended: generateCode raises InvalidZoiError exactly when the ZOI
fails the 32-hex-character regex; it raises InvalidTaxNumberError exactly
when the ZOI is well-formed but the rendered tax number is not exactly 8
digits; it returns normally exactly when both conditions hold. -/
theorem generateCode_error_conditions (zoi : String) (n : Nat) (d : JsDate) :
    (generateCode zoi n d = Except.error FursCodeError.invalidZoi ↔ ¬ zoiRegexMatches zoi) ∧
    (generateCode zoi n d = Except.error FursCodeError.invalidTaxNumber ↔
      (zoiRegexMatches zoi ∧ (decimalString n).length ≠ 8)) ∧
    ((generateCode zoi n d).isOk = true ↔
      (zoiRegexMatches zoi ∧ (decimalString n).length = 8)) := by
  unfold generateCode
  by_cases hz : validateZOI zoi = true
  · have hz2 : zoiRegexMatches zoi := (validateZOI_iff zoi).mp hz
    by_cases ht : validateTaxNumber n = true
    · have ht2 : (decimalString n).length = 8 := (validateTaxNumber_iff n).mp ht
      simp [hz, ht, hz2, ht2, Except.isOk, Except.toBool]
    · have ht2 : (decimalString n).length ≠ 8 := fun h => ht ((validateTaxNumber_iff n).mpr h)
      simp [hz, ht, hz2, ht2, Except.isOk, Except.toBool]
  · have hz2 : ¬ zoiRegexMatches zoi := fun h => hz ((validateZOI_iff zoi).mpr h)
    simp [hz, hz2, Except.isOk, Except.toBool]

/-- C1 evaluation: on the spec's own reference payload, the concatenated
data slices of splitForCode128 never reproduce the payload for any part
count; for 2 parts they give exactly the first 56 digits, dropping the
last four digits including the control digit. -/
theorem splitForCode128_loses_payload_tail :
    joinedDataSlices expectedPayload1 2 = some (jsSlice expectedPayload1 0 56) ∧
    joinedDataSlices expectedPayload1 2 ≠ some expectedPayload1 ∧
    joinedDataSlices expectedPayload1 3 ≠ some expectedPayload1 ∧
    joinedDataSlices expectedPayload1 4 ≠ some expectedPayload1 ∧
    joinedDataSlices expectedPayload1 5 ≠ some expectedPayload1 ∧
    joinedDataSlices expectedPayload1 6 ≠ some expectedPayload1 := by
  decide

/-! ## Claim C8: the 4-part split -/

/-- C8: for every 60-character payload, splitForCode128 with 4 parts
returns exactly four strings, each of total length 15, each consisting of
the prefix 44, then the single sequence digit equal to the part's 1-based
index, then its 12-character data slice. -/
theorem splitForCode128_four_parts (payload : String) (hlen : payload.length = 60) :
    splitForCode128 payload 4 = Except.ok
      ["44" ++ "1" ++ jsSlice payload 0 12,
       "44" ++ "2" ++ jsSlice payload 12 24,
       "44" ++ "3" ++ jsSlice payload 24 36,
       "44" ++ "4" ++ jsSlice payload 36 48] ∧
    ∀ p ∈ ["44" ++ "1" ++ jsSlice payload 0 12,
           "44" ++ "2" ++ jsSlice payload 12 24,
           "44" ++ "3" ++ jsSlice payload 24 36,
           "44" ++ "4" ++ jsSlice payload 36 48], p.length = 15 := by
  have hlen2 : payload.toList.length = 60 := hlen
  constructor
  · unfold splitForCode128
    rw [if_neg (by omega), if_neg (by omega)]
    show Except.ok ((List.range 4).map _) = _
    rw [List.range_succ, List.range_succ, List.range_succ, List.range_succ, List.range_zero]
    simp only [List.nil_append, List.cons_append, List.map_cons, List.map_nil]
    norm_num [code128Table]
    refine ⟨rfl, rfl, rfl, rfl⟩
  · intro p hp
    simp only [List.mem_cons, List.not_mem_nil, or_false] at hp
    have hs : ∀ a b : Nat, a + 12 = b → b ≤ 60 → (jsSlice payload a b).length = 12 := by
      intro a b hab hb
      rw [jsSlice_length, hlen2]
      omega
    rcases hp with rfl | rfl | rfl | rfl <;>
      simp [String.length_append, hs 0 12 rfl (by omega), hs 12 24 rfl (by omega),
        hs 24 36 rfl (by omega), hs 36 48 rfl (by omega)] <;>
      decide

/-- C8 witness: the theorem applied to the reference payload. -/
theorem splitForCode128_four_parts_witness :
    expectedPayload1.length = 60 ∧
    splitForCode128 expectedPayload1 4 = Except.ok
      ["44" ++ "1" ++ jsSlice expectedPayload1 0 12,
       "44" ++ "2" ++ jsSlice expectedPayload1 12 24,
       "44" ++ "3" ++ jsSlice expectedPayload1 24 36,
       "44" ++ "4" ++ jsSlice expectedPayload1 36 48] :=
  ⟨by decide, (splitForCode128_four_parts expectedPayload1 (by decide)).1⟩

/-! ## Lengths and digit classes of the rendered components -/

theorem isHexChar_toNat_range {c : Char} (h : isHexChar c = true) :
    (48 ≤ c.toNat ∧ c.toNat ≤ 57) ∨ (97 ≤ c.toNat ∧ c.toNat ≤ 102) ∨
      (65 ≤ c.toNat ∧ c.toNat ≤ 70) := by
  simp only [isHexChar, isDigitChar, Bool.or_eq_true, Bool.and_eq_true,
    decide_eq_true_eq] at h
  tauto

theorem beq_false_of_toNat_ne {c d : Char} (h : c.toNat ≠ d.toNat) : (c == d) = false := by
  cases h2 : c == d
  · rfl
  · exact absurd (congrArg Char.toNat (eq_of_beq h2)) h

theorem isWhitespace_eq_false_of_isHexChar {c : Char} (h : isHexChar c = true) :
    c.isWhitespace = false := by
  have hr := isHexChar_toNat_range h
  have h1 : ¬ (c = ' ') := by rintro rfl; revert hr; decide
  have h2 : ¬ (c = '\t') := by rintro rfl; revert hr; decide
  have h3 : ¬ (c = '\r') := by rintro rfl; revert hr; decide
  have h4 : ¬ (c = '\n') := by rintro rfl; revert hr; decide
  simp [Char.isWhitespace, h1, h2, h3, h4]

theorem stripWhitespace_of_hex {s : String} (h : ∀ c ∈ s.toList, isHexChar c = true) :
    stripWhitespace s = s := by
  unfold stripWhitespace
  have : s.toList.filter (fun c => !c.isWhitespace) = s.toList := by
    apply List.filter_eq_self.mpr
    intro c hc
    rw [isWhitespace_eq_false_of_isHexChar (h c hc)]
    rfl
  rw [this]
  cases s
  rfl

theorem toLowerStr_length (s : String) : (toLowerStr s).length = s.length := by
  simp [toLowerStr]

theorem decimalString_length_le {n k : Nat} (hk : 1 ≤ k) (h : n < 10 ^ k) :
    (decimalString n).length ≤ k := by
  by_cases hn : n = 0
  · subst hn
    simpa [decimalString, natToString] using hk
  · rw [decimalString, natToString_length (by omega) hn]
    exact digits_length_le (by omega) h

theorem decimalString_length_ge_two {n : Nat} (h : 10 ≤ n) :
    2 ≤ (decimalString n).length := by
  rw [decimalString, natToString_length (by omega) (by omega)]
  by_contra hlt
  have hlen : (Nat.digits 10 n).length ≤ 1 := by omega
  have h2 := Nat.lt_base_pow_length_digits (b := 10) (m := n) (by omega)
  have h3 : (10 : Nat) ^ (Nat.digits 10 n).length ≤ 10 ^ 1 :=
    Nat.pow_le_pow_right (by omega) hlen
  omega

theorem lastTwoChars_length (s : String) :
    (lastTwoChars s).length = min 2 s.length := by
  simp [lastTwoChars, List.length_drop]
  omega

/-- The length of hexToDecimalPadded on a 32-hex-character input is
exactly the target length 39. -/
theorem hexToDecimalPadded_length {zoi : String} (hz : zoiRegexMatches zoi) :
    (hexToDecimalPadded zoi 39).length = 39 := by
  obtain ⟨hlen, hhex⟩ := hz
  unfold hexToDecimalPadded
  rw [jsPadStart_length, stripWhitespace_of_hex hhex]
  have hvlt : parseHexNat (toLowerStr zoi) < 16 ^ 32 := by
    have := parseHexNat_lt (toLowerStr zoi)
    rwa [toLowerStr_length, hlen] at this
  have hv10 : parseHexNat (toLowerStr zoi) < 10 ^ 39 := by
    have hpow : (16 : Nat) ^ 32 < 10 ^ 39 := by decide
    omega
  have := decimalString_length_le (by omega) hv10
  omega

theorem all_digits_append {s t : String}
    (hs : ∀ c ∈ s.toList, isDigitChar c = true) (ht : ∀ c ∈ t.toList, isDigitChar c = true) :
    ∀ c ∈ (s ++ t).toList, isDigitChar c = true := by
  intro c hc
  have : c ∈ s.toList ++ t.toList := by simpa using hc
  rcases List.mem_append.mp this with h | h
  · exact hs c h
  · exact ht c h

theorem all_digits_jsPadStart {s : String} (k : Nat)
    (hs : ∀ c ∈ s.toList, isDigitChar c = true) :
    ∀ c ∈ (jsPadStart s k '0').toList, isDigitChar c = true := by
  intro c hc
  have : c ∈ List.replicate (k - s.length) '0' ++ s.toList := by simpa [jsPadStart] using hc
  rcases List.mem_append.mp this with h | h
  · rw [List.eq_of_mem_replicate h]
    decide
  · exact hs c h

theorem all_digits_lastTwoChars {s : String}
    (hs : ∀ c ∈ s.toList, isDigitChar c = true) :
    ∀ c ∈ (lastTwoChars s).toList, isDigitChar c = true := by
  intro c hc
  have : c ∈ s.toList.drop (s.length - 2) := by simpa [lastTwoChars] using hc
  exact hs c (List.mem_of_mem_drop this)

theorem all_digits_formatDateForCode (d : JsDate) :
    ∀ c ∈ (formatDateForCode d).toList, isDigitChar c = true := by
  unfold formatDateForCode
  exact all_digits_append (all_digits_append (all_digits_append (all_digits_append
    (all_digits_append (all_digits_lastTwoChars (decimalString_all_digits _))
      (all_digits_jsPadStart 2 (decimalString_all_digits _)))
      (all_digits_jsPadStart 2 (decimalString_all_digits _)))
      (all_digits_jsPadStart 2 (decimalString_all_digits _)))
      (all_digits_jsPadStart 2 (decimalString_all_digits _)))
      (all_digits_jsPadStart 2 (decimalString_all_digits _))

theorem formatDateForCode_length {d : JsDate} (hy : 10 ≤ d.fullYear)
    (hm : d.month0 ≤ 11) (hday : d.day ≤ 31) (hh : d.hours ≤ 23)
    (hmin : d.minutes ≤ 59) (hs : d.seconds ≤ 59) :
    (formatDateForCode d).length = 12 := by
  unfold formatDateForCode
  have h2 : ∀ m : Nat, m ≤ 99 → (jsPadStart (decimalString m) 2 '0').length = 2 := by
    intro m hm99
    rw [jsPadStart_length]
    have := decimalString_length_le (n := m) (k := 2) (by omega) (by omega)
    omega
  have hyr : (lastTwoChars (decimalString d.fullYear)).length = 2 := by
    rw [lastTwoChars_length]
    have := decimalString_length_ge_two hy
    omega
  simp only [String.length_append, hyr, h2 (d.month0 + 1) (by omega), h2 d.day (by omega),
    h2 d.hours (by omega), h2 d.minutes (by omega), h2 d.seconds (by omega)]

/-! ## Claim C2: structure of the 60-digit payload -/

theorem string_mk_toList (s : String) : String.mk s.toList = s := by
  cases s
  rfl

theorem decimalString_singleton {m : Nat} (h : m < 10) :
    decimalString m = String.mk [digitChar m] := by
  by_cases hm : m = 0
  · subst hm
    decide
  · rw [decimalString, natToString_eq (by omega) hm,
      Nat.digits_of_lt 10 m hm (by omega)]
    rfl

theorem taxNumberStr_length {n : Nat} (hn : n ≤ 99999999) :
    (jsPadStart (decimalString n) 8 '0').length = 8 := by
  rw [jsPadStart_length]
  have := decimalString_length_le (n := n) (k := 8) (by omega) (by omega)
  omega

/-- C2 amended: for every ZOI matching the 32-hex-character regex, every
tax number in [0, 99999999] and every date whose local-time year is at
least 10 (two-digit year; calendar fields in the ranges the JavaScript
Date getters guarantee), formatCodeData returns a 60-character digit
string structured as the 39-digit decimal ZOI, the 8-digit zero-padded
tax number, the 12-digit YYMMDDHHMMSS date, and a final checksum digit
equal to the digit sum of the preceding 59 characters modulo 10. -/
theorem formatCodeData_structure (zoi : String) (n : Nat) (d : JsDate)
    (hz : zoiRegexMatches zoi) (hn : n ≤ 99999999) (hy : 10 ≤ d.fullYear)
    (hmo : d.month0 ≤ 11) (hday : d.day ≤ 31) (hh : d.hours ≤ 23)
    (hmin : d.minutes ≤ 59) (hsec : d.seconds ≤ 59) :
    (formatCodeData zoi n d).length = 60 ∧
    (hexToDecimalPadded zoi 39).length = 39 ∧
    jsSlice (formatCodeData zoi n d) 0 39 = hexToDecimalPadded zoi 39 ∧
    jsSlice (formatCodeData zoi n d) 39 47 = jsPadStart (decimalString n) 8 '0' ∧
    jsSlice (formatCodeData zoi n d) 47 59 = formatDateForCode d ∧
    (∀ c ∈ (formatCodeData zoi n d).toList, isDigitChar c = true) ∧
    (formatCodeData zoi n d).toList.getLast? =
      some (digitChar (digitSum (jsSlice (formatCodeData zoi n d) 0 59) % 10)) := by
  have hA : (hexToDecimalPadded zoi 39).length = 39 := hexToDecimalPadded_length hz
  have hB : (jsPadStart (decimalString n) 8 '0').length = 8 := taxNumberStr_length hn
  have hC : (formatDateForCode d).length = 12 := formatDateForCode_length hy hmo hday hh hmin hsec
  have hfc : formatCodeData zoi n d =
      (hexToDecimalPadded zoi 39 ++ jsPadStart (decimalString n) 8 '0' ++ formatDateForCode d) ++
        calculateControlCharacter
          (hexToDecimalPadded zoi 39 ++ jsPadStart (decimalString n) 8 '0' ++ formatDateForCode d) := rfl
  have hctl : calculateControlCharacter
      (hexToDecimalPadded zoi 39 ++ jsPadStart (decimalString n) 8 '0' ++ formatDateForCode d) =
      String.mk [digitChar (digitSum
        (hexToDecimalPadded zoi 39 ++ jsPadStart (decimalString n) 8 '0' ++ formatDateForCode d) % 10)] := by
    unfold calculateControlCharacter
    exact decimalString_singleton (Nat.mod_lt _ (by omega))
  have hlist : (formatCodeData zoi n d).toList =
      ((hexToDecimalPadded zoi 39).toList ++ (jsPadStart (decimalString n) 8 '0').toList ++
        (formatDateForCode d).toList) ++
      [digitChar (digitSum
        (hexToDecimalPadded zoi 39 ++ jsPadStart (decimalString n) 8 '0' ++ formatDateForCode d) % 10)] := by
    rw [hfc, hctl]
    simp [String.toList]
  have hlen59 : ((hexToDecimalPadded zoi 39).toList ++ (jsPadStart (decimalString n) 8 '0').toList ++
      (formatDateForCode d).toList).length = 59 := by
    simp only [List.length_append]
    have e1 : (hexToDecimalPadded zoi 39).toList.length = 39 := hA
    have e2 : (jsPadStart (decimalString n) 8 '0').toList.length = 8 := hB
    have e3 : (formatDateForCode d).toList.length = 12 := hC
    omega
  have hslice59 : jsSlice (formatCodeData zoi n d) 0 59 =
      hexToDecimalPadded zoi 39 ++ jsPadStart (decimalString n) 8 '0' ++ formatDateForCode d := by
    rw [jsSlice, hlist]
    rw [List.drop_zero, List.take_left' hlen59]
    rw [show ((hexToDecimalPadded zoi 39).toList ++ (jsPadStart (decimalString n) 8 '0').toList ++
      (formatDateForCode d).toList) =
        (hexToDecimalPadded zoi 39 ++ jsPadStart (decimalString n) 8 '0' ++
          formatDateForCode d).toList by simp [String.toList]]
    exact string_mk_toList _
  refine ⟨?_, hA, ?_, ?_, ?_, ?_, ?_⟩
  · rw [show (formatCodeData zoi n d).length = (formatCodeData zoi n d).toList.length from rfl, hlist]
    simp only [List.length_append, hlen59]
    simp
  · rw [jsSlice, hlist, List.drop_zero, List.append_assoc, List.append_assoc,
      List.take_left' (show (hexToDecimalPadded zoi 39).toList.length = 39 from hA)]
    exact string_mk_toList _
  · rw [jsSlice, hlist]
    simp only [List.append_assoc]
    rw [List.drop_left' (show (hexToDecimalPadded zoi 39).toList.length = 39 from hA),
      List.take_left' (show (jsPadStart (decimalString n) 8 '0').toList.length = 47 - 39 by
        rw [show (jsPadStart (decimalString n) 8 '0').toList.length =
          (jsPadStart (decimalString n) 8 '0').length from rfl, hB])]
    exact string_mk_toList _
  · rw [jsSlice, hlist]
    simp only [List.append_assoc]
    have hdd : ∀ l : List Char, l.drop 47 = (l.drop 39).drop 8 := fun l => by
      rw [List.drop_drop]
    rw [hdd, List.drop_left' (show (hexToDecimalPadded zoi 39).toList.length = 39 from hA),
      List.drop_left' (show (jsPadStart (decimalString n) 8 '0').toList.length = 8 from hB),
      List.take_left' (show (formatDateForCode d).toList.length = 59 - 47 by
        rw [show (formatDateForCode d).toList.length = (formatDateForCode d).length from rfl, hC])]
    exact string_mk_toList _
  · intro c hc
    rw [hlist] at hc
    rcases List.mem_append.mp hc with h1 | h1
    · rcases List.mem_append.mp h1 with h2 | h2
      · rcases List.mem_append.mp h2 with h3 | h3
        · exact all_digits_jsPadStart 39 (decimalString_all_digits _) c h3
        · exact all_digits_jsPadStart 8 (decimalString_all_digits _) c h3
      · exact all_digits_formatDateForCode d c h2
    · rw [List.mem_singleton] at h1
      subst h1
      exact isDigitChar_digitChar (Nat.mod_lt _ (by omega))
  · rw [hlist, List.getLast?_concat, hslice59]

/-- C2 counterexample: for a JavaScript Date whose local year is 5 the
two-digit year rendering of formatDateForCode yields a single character,
so the payload has 59 characters instead of 60 and the claim fails as
stated for arbitrary dates. -/
theorem formatCodeData_year_five_is_short :
    (formatCodeData zoiHex1 12345678
      { fullYear := 5, month0 := 7, day := 15, hours := 10, minutes := 13, seconds := 32 }).length ≠ 60 ∧
    (formatCodeData zoiHex1 12345678
      { fullYear := 5, month0 := 7, day := 15, hours := 10, minutes := 13, seconds := 32 }).length = 59 := by
  decide

/-- C2 witness: the structure theorem applied to the reference inputs. -/
theorem formatCodeData_structure_witness :
    zoiRegexMatches zoiHex1 ∧ 12345678 ≤ 99999999 ∧ 10 ≤ date2015.fullYear ∧
    date2015.month0 ≤ 11 ∧ date2015.day ≤ 31 ∧ date2015.hours ≤ 23 ∧
    date2015.minutes ≤ 59 ∧ date2015.seconds ≤ 59 ∧
    (formatCodeData zoiHex1 12345678 date2015).length = 60 :=
  ⟨by decide, by decide, by decide, by decide, by decide, by decide, by decide, by decide,
    (formatCodeData_structure zoiHex1 12345678 date2015 (by decide) (by decide) (by decide)
      (by decide) (by decide) (by decide) (by decide) (by decide)).1⟩

theorem isLowerHexChar_toNat_range {c : Char} (h : isLowerHexChar c = true) :
    (48 ≤ c.toNat ∧ c.toNat ≤ 57) ∨ (97 ≤ c.toNat ∧ c.toNat ≤ 102) := by
  simp only [isLowerHexChar, isDigitChar, Bool.or_eq_true, Bool.and_eq_true,
    decide_eq_true_eq] at h
  tauto

theorem asciiToLower_hex {c : Char} (h : isHexChar c = true) :
    isLowerHexChar (asciiToLower c) = true := by
  have hr := isHexChar_toNat_range h
  unfold asciiToLower
  by_cases hu : 65 ≤ c.toNat ∧ c.toNat ≤ 90
  · rw [if_pos hu]
    have ht : (Char.ofNat (c.toNat + 32)).toNat = c.toNat + 32 := char_toNat_ofNat (by omega)
    simp only [isLowerHexChar, isDigitChar, Bool.or_eq_true, Bool.and_eq_true,
      decide_eq_true_eq, ht]
    omega
  · rw [if_neg hu]
    simp only [isLowerHexChar, isDigitChar, Bool.or_eq_true, Bool.and_eq_true,
      decide_eq_true_eq]
    omega

theorem digitChar_hexCharVal {c : Char} (h : isLowerHexChar c = true) :
    digitChar (hexCharVal c) = c := by
  have hr := isLowerHexChar_toNat_range h
  apply char_eq_of_toNat
  rcases hr with ⟨h1, h2⟩ | ⟨h1, h2⟩
  · have hv : hexCharVal c = c.toNat - 48 := by
      unfold hexCharVal
      rw [if_pos ⟨h1, h2⟩]
    unfold digitChar
    rw [hv, if_pos (by omega : c.toNat - 48 < 10), char_toNat_ofNat (by omega)]
    omega
  · have hv : hexCharVal c = c.toNat - 87 := by
      unfold hexCharVal
      rw [if_neg (by omega), if_pos ⟨h1, h2⟩]
    unfold digitChar
    rw [hv, if_neg (by omega), char_toNat_ofNat (by omega)]
    omega

theorem hexCharVal_ne_zero {c : Char} (h : isLowerHexChar c = true) (hc : c ≠ '0') :
    hexCharVal c ≠ 0 := by
  have hr := isLowerHexChar_toNat_range h
  have h48 : c.toNat ≠ 48 := by
    intro he
    exact hc (char_eq_of_toNat he)
  unfold hexCharVal
  rcases hr with ⟨h1, h2⟩ | ⟨h1, h2⟩
  · rw [if_pos ⟨h1, h2⟩]
    omega
  · rw [if_neg (by omega), if_pos ⟨h1, h2⟩]
    omega

theorem parseHexNat_cons_zero (l : List Char) :
    parseHexNat (String.mk ('0' :: l)) = parseHexNat (String.mk l) := by
  show List.foldl _ _ ('0' :: l) = List.foldl _ _ l
  rw [List.foldl_cons, show 16 * 0 + hexCharVal '0' = 0 from by decide]

/-- Rendering the hex value of a nonzero-leading-digit lowercase hex
string gives back exactly that string. -/
theorem hexString_parseHex_of_head_ne_zero (c : Char) (t : List Char)
    (hw : ∀ x ∈ c :: t, isLowerHexChar x = true) (hc : c ≠ '0') :
    hexString (parseHexNat (String.mk (c :: t))) = String.mk (c :: t) := by
  have hval : parseHexNat (String.mk (c :: t)) =
      Nat.ofDigits 16 (((c :: t).map hexCharVal).reverse) := by
    rw [parseHexNat_eq_ofDigits]
    rfl
  have hall : ∀ d ∈ ((c :: t).map hexCharVal).reverse, d < 16 := by
    intro d hd
    rw [List.mem_reverse, List.mem_map] at hd
    obtain ⟨x, _, rfl⟩ := hd
    exact hexCharVal_lt x
  have hlast : ∀ h : ((c :: t).map hexCharVal).reverse ≠ [],
      (((c :: t).map hexCharVal).reverse).getLast h ≠ 0 := by
    intro h
    have hre : ((c :: t).map hexCharVal).reverse =
        (t.map hexCharVal).reverse ++ [hexCharVal c] := by simp
    rw [List.getLast_congr _ _ hre, List.getLast_concat]
    exact hexCharVal_ne_zero (hw c (List.mem_cons_self c t)) hc
  have hdig := Nat.digits_ofDigits 16 (by omega) _ hall hlast
  have hne0 : Nat.ofDigits 16 (((c :: t).map hexCharVal).reverse) ≠ 0 := by
    intro h0
    have hnil : Nat.digits 16 (Nat.ofDigits 16 (((c :: t).map hexCharVal).reverse)) = [] := by
      rw [h0]
      simp
    rw [hdig] at hnil
    simp at hnil
  rw [hval, hexString, natToString, if_neg hne0, natDigits_eq_digits (by omega), hdig,
    List.reverse_reverse, List.map_map]
  congr 1
  have hpt : ∀ x ∈ c :: t, (digitChar ∘ hexCharVal) x = id x :=
    fun x hx => digitChar_hexCharVal (hw x hx)
  rw [List.map_congr_left hpt, List.map_id]

/-- Left-padding the hex rendering of the parsed value back to the
original width reproduces any nonempty lowercase hex string. -/
theorem hexString_pad_eq (w : List Char) (hne : w ≠ [])
    (hw : ∀ c ∈ w, isLowerHexChar c = true) :
    List.replicate (w.length - (hexString (parseHexNat (String.mk w))).length) '0' ++
      (hexString (parseHexNat (String.mk w))).toList = w := by
  induction w with
  | nil => exact absurd rfl hne
  | cons c t ih =>
    by_cases hc : c = '0'
    · subst hc
      cases t with
      | nil => decide
      | cons d t2 =>
        rw [parseHexNat_cons_zero]
        have ihh := ih (by simp) (fun x hx => hw x (List.mem_cons_of_mem _ hx))
        have hlen : (hexString (parseHexNat (String.mk (d :: t2)))).length ≤ (d :: t2).length := by
          have hl := congrArg List.length ihh
          simp only [List.length_append, List.length_replicate,
            show ∀ s : String, s.toList.length = s.length from fun _ => rfl] at hl
          omega
        have hgoal : ('0' :: (d :: t2)).length -
              (hexString (parseHexNat (String.mk (d :: t2)))).length =
            ((d :: t2).length - (hexString (parseHexNat (String.mk (d :: t2)))).length) + 1 := by
          simp only [List.length_cons] at hlen ⊢
          omega
        rw [hgoal, List.replicate_succ, List.cons_append, ihh]
    · rw [hexString_parseHex_of_head_ne_zero c t hw hc]
      simp

theorem parseDecNat_replicate_append (k : Nat) (s : String) :
    parseDecNat (String.mk (List.replicate k '0') ++ s) = parseDecNat s := by
  unfold parseDecNat
  rw [show (String.mk (List.replicate k '0') ++ s).toList =
    List.replicate k '0' ++ s.toList by simp [String.toList]]
  rw [List.foldl_append]
  congr 1
  induction k with
  | zero => rfl
  | succ k ihk =>
    rw [List.replicate_succ, List.foldl_cons,
      show 10 * 0 + ('0'.toNat - 48) = 0 from by decide]
    exact ihk

theorem parseDecNat_decimalString (n : Nat) : parseDecNat (decimalString n) = n := by
  by_cases hn : n = 0
  · subst hn
    decide
  · rw [decimalString, natToString_eq (by omega) hn]
    unfold parseDecNat
    rw [show (String.mk (((Nat.digits 10 n).reverse).map digitChar)).toList =
      ((Nat.digits 10 n).reverse).map digitChar from rfl]
    rw [foldl_mul_add_eq_ofDigits 10 (fun c => c.toNat - 48)]
    rw [List.map_map]
    have hpt : ∀ d ∈ (Nat.digits 10 n).reverse,
        ((fun c => c.toNat - 48) ∘ digitChar) d = id d := by
      intro d hd
      rw [List.mem_reverse] at hd
      have hd10 : d < 10 := Nat.digits_lt_base (by omega) hd
      simp only [Function.comp_apply, id_eq]
      rw [digitChar_toNat (by omega), if_pos hd10]
      omega
    rw [List.map_congr_left hpt, List.map_id, List.reverse_reverse, Nat.ofDigits_digits]
    simp

/-- C4 counterexample: on a 32-hex-character ZOI with leading zeros, the
decimal output of hexToDecimalPadded converts back to a big integer whose
canonical hexadecimal rendering is just "1", which does not equal the
original 32-character string even case-insensitively. -/
theorem hexToDecimalPadded_roundTrip_fails_on_leading_zeros :
    (hexToDecimalPadded "00000000000000000000000000000001" 39).length = 39 ∧
    hexString (parseDecNat (hexToDecimalPadded "00000000000000000000000000000001" 39)) = "1" ∧
    toLowerStr "00000000000000000000000000000001" = "00000000000000000000000000000001" ∧
    "1" ≠ "00000000000000000000000000000001" := by
  decide

/-- C4 amended: for every 32-hex-character string z, hexToDecimalPadded
z 39 has length exactly 39, and converting the decimal string back to a
big integer and rendering it in hexadecimal left-padded with zeros to 32
characters equals z compared case-insensitively (that is, equals the
lower-casing of z; without the re-padding the claim fails for strings
with leading zeros). -/
theorem hexToDecimalPadded_roundTrip (z : String) (hz : zoiRegexMatches z) :
    (hexToDecimalPadded z 39).length = 39 ∧
    jsPadStart (hexString (parseDecNat (hexToDecimalPadded z 39))) 32 '0' = toLowerStr z := by
  obtain ⟨hlen, hhex⟩ := hz
  refine ⟨hexToDecimalPadded_length ⟨hlen, hhex⟩, ?_⟩
  have hstrip : stripWhitespace z = z := stripWhitespace_of_hex hhex
  have hw : ∀ c ∈ (toLowerStr z).toList, isLowerHexChar c = true := by
    intro c hc
    have : c ∈ z.toList.map asciiToLower := hc
    rw [List.mem_map] at this
    obtain ⟨d, hd, rfl⟩ := this
    exact asciiToLower_hex (hhex d hd)
  have hwlen : (toLowerStr z).toList.length = 32 := by
    have : (toLowerStr z).length = 32 := by rw [toLowerStr_length, hlen]
    exact this
  have hne : (toLowerStr z).toList ≠ [] := by
    intro h
    rw [h] at hwlen
    simp at hwlen
  have hpd : parseDecNat (hexToDecimalPadded z 39) = parseHexNat (toLowerStr z) := by
    show parseDecNat (jsPadStart (decimalString (parseHexNat (toLowerStr (stripWhitespace z)))) 39 '0') = _
    rw [hstrip]
    unfold jsPadStart
    rw [parseDecNat_replicate_append, parseDecNat_decimalString]
  rw [hpd]
  have hmain := hexString_pad_eq (toLowerStr z).toList hne hw
  rw [string_mk_toList] at hmain
  have hlists : (jsPadStart (hexString (parseHexNat (toLowerStr z))) 32 '0').toList =
      (toLowerStr z).toList := by
    show List.replicate (32 - (hexString (parseHexNat (toLowerStr z))).length) '0' ++
      (hexString (parseHexNat (toLowerStr z))).toList = (toLowerStr z).toList
    rw [show (32 : Nat) = (toLowerStr z).toList.length from hwlen.symm]
    exact hmain
  have := congrArg String.mk hlists
  rwa [string_mk_toList, string_mk_toList] at this

/-- C4 witness: the amended round trip applied to the second reference
ZOI, which has a leading zero. -/
theorem hexToDecimalPadded_roundTrip_witness :
    zoiRegexMatches zoiHex2 ∧
    jsPadStart (hexString (parseDecNat (hexToDecimalPadded zoiHex2 39))) 32 '0' =
      toLowerStr zoiHex2 :=
  ⟨by decide, (hexToDecimalPadded_roundTrip zoiHex2 (by decide)).2⟩

theorem escapeCommas_eq_spec (v : String) : escapeCommas v = specEscapeValue v := by
  unfold escapeCommas specEscapeValue
  congr 1
  induction v.toList with
  | nil => rfl
  | cons ch t iht =>
    rw [List.flatMap_cons, List.foldr_cons, iht]
    by_cases h : ch = ','
    · subst h
      simp
    · simp [h]

theorem specEscapeValue_no_comma (v : String) (h : v.toList.contains ',' = false) :
    specEscapeValue v = v := by
  unfold specEscapeValue
  have h2 : ∀ ch ∈ v.toList, ch ≠ ',' := by
    intro ch hm he
    subst he
    have h4 : v.toList.elem ',' = false := h
    rw [List.elem_eq_true_of_mem hm] at h4
    exact Bool.noConfusion h4
  have h3 : ∀ l : List Char, (∀ ch ∈ l, ch ≠ ',') →
      l.foldr (fun ch acc => if ch = ',' then '\\' :: ',' :: acc else ch :: acc) [] = l := by
    intro l
    induction l with
    | nil => intro _; rfl
    | cons ch t iht =>
      intro hall
      rw [List.foldr_cons, iht (fun x hx => hall x (List.mem_cons_of_mem _ hx)),
        if_neg (hall ch (List.mem_cons_self _ _))]
  rw [h3 v.toList h2]
  exact string_mk_toList v

theorem cn_entry_mem_eq (v : String) :
    (if ',' ∈ v.data then "CN=" ++ escapeCommas v else "CN=" ++ v) =
    "CN=" ++ specEscapeValue v := by
  by_cases h : ',' ∈ v.data
  · rw [if_pos h, escapeCommas_eq_spec]
  · rw [if_neg h, specEscapeValue_no_comma v ?hcon]
    case hcon =>
      cases hc : v.toList.contains ',' with
      | false => rfl
      | true => exact absurd (List.mem_of_elem_eq_true hc) h

/-- C5: for every attribute list, the subject identity string built by
the code is exactly the claim's canonical form: CN first with commas
escaped, then the fixed literal placeholder when OID 2.5.4.5 is present,
then the device-class-marker OU, then the purely numeric OU, then O,
then C, all comma-joined with absent attributes omitted. -/
theorem getCertificateSubjectName_eq_spec (attrs : List SubjectAttr) :
    getCertificateSubjectName attrs = subjectNameSpec attrs := by
  unfold getCertificateSubjectName subjectNameSpec
  dsimp only []
  generalize attrs.find? (fun a => a.shortName == "CN" || a.typeOid == "2.5.4.3") = ocn
  generalize attrs.find? (fun a => a.typeOid == "2.5.4.5") = oser
  generalize (attrs.filter (fun a => a.shortName == "OU" || a.typeOid == "2.5.4.11")).find?
      (fun a => a.value == "DavPotRacTEST") = odav
  generalize (attrs.filter (fun a => a.shortName == "OU" || a.typeOid == "2.5.4.11")).find?
      (fun a => !a.value.isEmpty && a.value.toList.all isDigitChar) = otax
  generalize attrs.find? (fun a => a.shortName == "O" || a.typeOid == "2.5.4.10") = oo
  generalize attrs.find? (fun a => a.shortName == "C" || a.typeOid == "2.5.4.6") = oc
  cases ocn <;> cases oser <;> cases odav <;> cases otax <;> cases oo <;> cases oc <;>
    simp [optionEntry, cn_entry_mem_eq]

/-- C7: for every input string (and any behaviour of the decode and parse
primitives), decodeJWT never propagates an exception: it returns either a
structured failure carrying the failure reason, or a success with the
decoded header, payload and signature segment, in which case the input
had exactly 3 dot-separated segments. -/
theorem decodeJWT_total_or_structured {α : Type} (dec : String → Except String String)
    (parseJson : String → Except String α) (jwt : String) :
    ((decodeJWT dec parseJson jwt).valid = false ∧
      (decodeJWT dec parseJson jwt).error.isSome = true ∧
      (decodeJWT dec parseJson jwt).header = none ∧
      (decodeJWT dec parseJson jwt).payload = none) ∨
    ((decodeJWT dec parseJson jwt).valid = true ∧
      (decodeJWT dec parseJson jwt).error = none ∧
      (decodeJWT dec parseJson jwt).header.isSome = true ∧
      (decodeJWT dec parseJson jwt).payload.isSome = true ∧
      (jwt.splitOn ".").length = 3) := by
  unfold decodeJWT
  cases hb : decodeJWTBody dec parseJson jwt with
  | error e =>
    left
    exact ⟨rfl, rfl, rfl, rfl⟩
  | ok r =>
    right
    obtain ⟨h, p, s⟩ := r
    refine ⟨rfl, rfl, rfl, rfl, ?_⟩
    by_cases hlen : (jwt.splitOn ".").length = 3
    · exact hlen
    · simp only [decodeJWTBody] at hb
      rw [if_pos hlen] at hb
      exact Except.noConfusion hb

/-! ## UTF-8 round trip -/

theorem char_toNat_lt (c : Char) : c.toNat < 1114112 := by
  rcases c.valid with h | ⟨h1, h2⟩
  · exact Nat.lt_trans h (by omega)
  · exact h2

theorem char_ofNat_toNat (c : Char) : Char.ofNat c.toNat = c := by
  apply char_eq_of_toNat
  have hv : c.toNat.isValidChar := c.valid
  unfold Char.ofNat
  rw [dif_pos hv]
  rfl

theorem utf8EncodeChar_lt (c : Char) : ∀ b ∈ utf8EncodeChar c, b < 256 := by
  have hlt := char_toNat_lt c
  unfold utf8EncodeChar
  split_ifs <;> intro b hb <;> fin_cases hb <;> omega

theorem utf8Encode_lt (s : String) : ∀ b ∈ utf8Encode s, b < 256 := by
  intro b hb
  unfold utf8Encode at hb
  rw [List.mem_flatMap] at hb
  obtain ⟨c, _, hbc⟩ := hb
  exact utf8EncodeChar_lt c b hbc

theorem utf8Dec_nil : utf8DecodeCodepoints [] = [] := by
  conv_lhs => rw [utf8DecodeCodepoints.eq_def]

theorem utf8Dec_one {b1 : Nat} (rest : List Nat) (h : b1 < 128) :
    utf8DecodeCodepoints (b1 :: rest) = b1 :: utf8DecodeCodepoints rest := by
  conv_lhs => rw [utf8DecodeCodepoints.eq_def]
  dsimp only
  rw [if_pos h]

theorem utf8Dec_two {b1 : Nat} (b2 : Nat) (rest : List Nat) (h1 : ¬ b1 < 128) (h2 : b1 < 224) :
    utf8DecodeCodepoints (b1 :: b2 :: rest) =
      ((b1 - 192) * 64 + (b2 - 128)) :: utf8DecodeCodepoints rest := by
  conv_lhs => rw [utf8DecodeCodepoints.eq_def]
  dsimp only
  rw [if_neg h1, if_pos h2]
  rfl

theorem utf8Dec_three {b1 : Nat} (b2 b3 : Nat) (rest : List Nat)
    (h1 : ¬ b1 < 128) (h2 : ¬ b1 < 224) (h3 : b1 < 240) :
    utf8DecodeCodepoints (b1 :: b2 :: b3 :: rest) =
      ((b1 - 224) * 4096 + (b2 - 128) * 64 + (b3 - 128)) :: utf8DecodeCodepoints rest := by
  conv_lhs => rw [utf8DecodeCodepoints.eq_def]
  dsimp only
  rw [if_neg h1, if_neg h2, if_pos h3]
  rfl

theorem utf8Dec_four {b1 : Nat} (b2 b3 b4 : Nat) (rest : List Nat)
    (h1 : ¬ b1 < 128) (h2 : ¬ b1 < 224) (h3 : ¬ b1 < 240) :
    utf8DecodeCodepoints (b1 :: b2 :: b3 :: b4 :: rest) =
      ((b1 - 240) * 262144 + (b2 - 128) * 4096 + (b3 - 128) * 64 + (b4 - 128)) ::
        utf8DecodeCodepoints rest := by
  conv_lhs => rw [utf8DecodeCodepoints.eq_def]
  dsimp only
  rw [if_neg h1, if_neg h2, if_neg h3]
  rfl

set_option maxRecDepth 4000 in
theorem utf8Decode_encodeChar (c : Char) (rest : List Nat) :
    utf8DecodeCodepoints (utf8EncodeChar c ++ rest) =
      c.toNat :: utf8DecodeCodepoints rest := by
  have hlt := char_toNat_lt c
  unfold utf8EncodeChar
  by_cases h1 : c.toNat < 128
  · rw [if_pos h1, List.cons_append, List.nil_append, utf8Dec_one rest h1]
  · rw [if_neg h1]
    by_cases h2 : c.toNat < 2048
    · rw [if_pos h2, List.cons_append, List.cons_append, List.nil_append,
        utf8Dec_two _ _ (by omega) (by omega)]
      congr 1
      omega
    · rw [if_neg h2]
      by_cases h3 : c.toNat < 65536
      · rw [if_pos h3, List.cons_append, List.cons_append, List.cons_append, List.nil_append,
          utf8Dec_three _ _ _ (by omega) (by omega) (by omega)]
        congr 1
        omega
      · rw [if_neg h3, List.cons_append, List.cons_append, List.cons_append, List.cons_append,
          List.nil_append, utf8Dec_four _ _ _ _ (by omega) (by omega) (by omega)]
        congr 1
        omega

theorem utf8Decode_encode_list (cs : List Char) :
    utf8DecodeCodepoints (cs.flatMap utf8EncodeChar) = cs.map Char.toNat := by
  induction cs with
  | nil =>
    rw [show ([] : List Char).flatMap utf8EncodeChar = [] from rfl, utf8Dec_nil]
    rfl
  | cons c t iht =>
    rw [List.flatMap_cons, utf8Decode_encodeChar, iht, List.map_cons]

theorem utf8_roundTrip (s : String) : utf8DecodeString (utf8Encode s) = s := by
  unfold utf8DecodeString utf8Encode
  rw [utf8Decode_encode_list, List.map_map]
  have hpt : ∀ c ∈ s.toList, (Char.ofNat ∘ Char.toNat) c = id c :=
    fun c _ => char_ofNat_toNat c
  rw [List.map_congr_left hpt, List.map_id]
  exact string_mk_toList s

/-! ## Base64 round trip at the byte level -/

theorem b64CharVal_b64Char : ∀ x, x < 64 → b64CharVal (b64Char x) = x := by
  decide

theorem b64Char_ne_pad : ∀ x, x < 64 → b64Char x ≠ '=' := by
  decide

theorem b64DecodeChars_encode (l : List Nat) (hl : ∀ b ∈ l, b < 256) :
    b64DecodeChars (b64EncodeBytes l) = l := by
  have main : ∀ n (l : List Nat), l.length ≤ n → (∀ b ∈ l, b < 256) →
      b64DecodeChars (b64EncodeBytes l) = l := by
    intro n
    induction n with
    | zero =>
      intro l hlen _
      cases l with
      | nil => rfl
      | cons a t => simp at hlen
    | succ n ihn =>
      intro l hlen hb
      match l with
      | [] => rfl
      | [a] =>
        have ha : a < 256 := hb a (by simp)
        show b64DecodeChars [b64Char (a / 4), b64Char (a % 4 * 16), '=', '='] = [a]
        have hv1 := b64CharVal_b64Char (a / 4) (by omega)
        have hv2 := b64CharVal_b64Char (a % 4 * 16) (by omega)
        simp [b64DecodeChars, hv1, hv2]
        omega
      | [a, b] =>
        have ha : a < 256 := hb a (by simp)
        have hb2 : b < 256 := hb b (by simp)
        show b64DecodeChars
          [b64Char (a / 4), b64Char (a % 4 * 16 + b / 16), b64Char (b % 16 * 4), '='] = [a, b]
        have hne := b64Char_ne_pad (b % 16 * 4) (by omega)
        have hv1 := b64CharVal_b64Char (a / 4) (by omega)
        have hv2 := b64CharVal_b64Char (a % 4 * 16 + b / 16) (by omega)
        have hv3 := b64CharVal_b64Char (b % 16 * 4) (by omega)
        simp [b64DecodeChars, hne, hv1, hv2, hv3]
        omega
      | a :: b :: c :: rest =>
        have ha : a < 256 := hb a (by simp)
        have hb2 : b < 256 := hb b (by simp)
        have hc : c < 256 := hb c (by simp)
        show b64DecodeChars (b64Char (a / 4) :: b64Char (a % 4 * 16 + b / 16) ::
          b64Char (b % 16 * 4 + c / 64) :: b64Char (c % 64) :: b64EncodeBytes rest) =
          a :: b :: c :: rest
        have hne3 := b64Char_ne_pad (b % 16 * 4 + c / 64) (by omega)
        have hne4 := b64Char_ne_pad (c % 64) (by omega)
        have hv1 := b64CharVal_b64Char (a / 4) (by omega)
        have hv2 := b64CharVal_b64Char (a % 4 * 16 + b / 16) (by omega)
        have hv3 := b64CharVal_b64Char (b % 16 * 4 + c / 64) (by omega)
        have hv4 := b64CharVal_b64Char (c % 64) (by omega)
        have hrec := ihn rest (by simp at hlen; omega) (fun x hx => hb x (by simp [hx]))
        simp [b64DecodeChars, hne3, hne4, hv1, hv2, hv3, hv4, hrec]
        omega
  exact main l.length l (Nat.le_refl _) hl

/-! ## Shape of the base64 output and the url replacements -/

theorem b64Encode_shape : ∀ n (l : List Nat), l.length ≤ n → (∀ b ∈ l, b < 256) →
    ∃ core k, b64EncodeBytes l = core ++ List.replicate k '=' ∧ k ≤ 2 ∧
      (core.length + k) % 4 = 0 ∧ ∀ c ∈ core, ∃ x, x < 64 ∧ c = b64Char x := by
  intro n
  induction n with
  | zero =>
    intro l hlen _
    cases l with
    | nil => exact ⟨[], 0, rfl, by omega, by simp, by simp⟩
    | cons a t => simp at hlen
  | succ n ihn =>
    intro l hlen hb
    match l with
    | [] => exact ⟨[], 0, rfl, by omega, by simp, by simp⟩
    | [a] =>
      have ha : a < 256 := hb a (by simp)
      refine ⟨[b64Char (a / 4), b64Char (a % 4 * 16)], 2, rfl, by omega, by simp, ?_⟩
      intro c hc
      fin_cases hc
      · exact ⟨a / 4, by omega, rfl⟩
      · exact ⟨a % 4 * 16, by omega, rfl⟩
    | [a, b] =>
      have ha : a < 256 := hb a (by simp)
      have hb2 : b < 256 := hb b (by simp)
      refine ⟨[b64Char (a / 4), b64Char (a % 4 * 16 + b / 16), b64Char (b % 16 * 4)], 1,
        rfl, by omega, by simp, ?_⟩
      intro c hc
      fin_cases hc
      · exact ⟨a / 4, by omega, rfl⟩
      · exact ⟨a % 4 * 16 + b / 16, by omega, rfl⟩
      · exact ⟨b % 16 * 4, by omega, rfl⟩
    | a :: b :: c :: rest =>
      have ha : a < 256 := hb a (by simp)
      have hb2 : b < 256 := hb b (by simp)
      have hc : c < 256 := hb c (by simp)
      obtain ⟨core, k, he, hk, hmod, hmem⟩ :=
        ihn rest (by simp at hlen; omega) (fun x hx => hb x (by simp [hx]))
      refine ⟨b64Char (a / 4) :: b64Char (a % 4 * 16 + b / 16) ::
        b64Char (b % 16 * 4 + c / 64) :: b64Char (c % 64) :: core, k, ?_, hk, ?_, ?_⟩
      · show b64Char (a / 4) :: b64Char (a % 4 * 16 + b / 16) ::
          b64Char (b % 16 * 4 + c / 64) :: b64Char (c % 64) :: b64EncodeBytes rest = _
        rw [he]
        simp
      · simp only [List.length_cons]
        omega
      · intro d hd
        simp only [List.mem_cons] at hd
        rcases hd with rfl | rfl | rfl | rfl | hd
        · exact ⟨a / 4, by omega, rfl⟩
        · exact ⟨a % 4 * 16 + b / 16, by omega, rfl⟩
        · exact ⟨b % 16 * 4 + c / 64, by omega, rfl⟩
        · exact ⟨c % 64, by omega, rfl⟩
        · exact hmem d hd

theorem urlmap_roundtrip_char : ∀ x, x < 64 →
    (fun c => if c = '_' then '/' else c)
      ((fun c => if c = '-' then '+' else c)
        ((fun c => if c = '/' then '_' else c)
          ((fun c => if c = '+' then '-' else c) (b64Char x)))) = b64Char x := by
  decide

theorem urlmap_ne_pad : ∀ x, x < 64 →
    (!((fun c => if c = '/' then '_' else c)
        ((fun c => if c = '+' then '-' else c) (b64Char x)) == '=')) = true := by
  decide

theorem string_toList_append (a b : String) : (a ++ b).toList = a.toList ++ b.toList := rfl

theorem base64ToUrlChars_shape (core : List Char) (k : Nat)
    (hmem : ∀ c ∈ core, ∃ x, x < 64 ∧ c = b64Char x) :
    base64ToUrlChars (core ++ List.replicate k '=') =
      (core.map (fun c => if c = '+' then '-' else c)).map
        (fun c => if c = '/' then '_' else c) := by
  unfold base64ToUrlChars
  rw [List.map_append, List.map_append, List.filter_append]
  have hrep1 : (List.replicate k '=').map (fun c => if c = '+' then '-' else c) =
      List.replicate k '=' := by
    rw [List.map_replicate]
    rfl
  have hrep2 : (List.replicate k '=').map (fun c => if c = '/' then '_' else c) =
      List.replicate k '=' := by
    rw [List.map_replicate]
    rfl
  rw [hrep1, hrep2]
  have hfilter_rep : (List.replicate k '=').filter (fun c => !(c == '=')) = [] := by
    induction k with
    | zero => rfl
    | succ k ihk =>
      rw [List.replicate_succ, List.filter_cons]
      simp [ihk]
  rw [hfilter_rep, List.append_nil]
  apply List.filter_eq_self.mpr
  intro c hc
  rw [List.mem_map] at hc
  obtain ⟨c1, hc1, rfl⟩ := hc
  rw [List.mem_map] at hc1
  obtain ⟨c0, hc0, rfl⟩ := hc1
  obtain ⟨x, hx, rfl⟩ := hmem c0 hc0
  exact urlmap_ne_pad x hx

set_option maxHeartbeats 2000000 in
/-- C10: decoding the base64url encoding of any well-formed UTF-8 string
reproduces the string exactly, including the padding edge case in which
the stripped encoding has length divisible by 4 and the decoder's
(4 - len mod 4) mod 4 computation must add no padding characters. -/
theorem base64url_roundTrip (s : String) : base64urlDecode (base64urlEncode s) = s := by
  obtain ⟨core, k, he, hk, hmod, hmem⟩ :=
    b64Encode_shape (utf8Encode s).length (utf8Encode s) (Nat.le_refl _) (utf8Encode_lt s)
  have henc : (base64urlEncode s).toList =
      (core.map (fun c => if c = '+' then '-' else c)).map
        (fun c => if c = '/' then '_' else c) := by
    show base64ToUrlChars (b64EncodeBytes (utf8Encode s)) = _
    rw [he, base64ToUrlChars_shape core k hmem]
  have hlen : (base64urlEncode s).length = core.length := by
    show (base64urlEncode s).toList.length = core.length
    rw [henc]
    simp
  have hpadk : (4 - (base64urlEncode s).length % 4) % 4 = k := by
    rw [hlen]
    omega
  have hdec : base64urlDecode (base64urlEncode s) = utf8DecodeString (b64DecodeChars
      ((((base64urlEncode s ++
          String.mk (List.replicate ((4 - (base64urlEncode s).length % 4) % 4) '=')).toList.map
        (fun c => if c = '-' then '+' else c)).map
        (fun c => if c = '_' then '/' else c)))) := rfl
  rw [hdec, hpadk, string_toList_append, henc]
  rw [show (String.mk (List.replicate k '=')).toList = List.replicate k '=' from rfl]
  rw [List.map_append, List.map_append, List.map_replicate, List.map_replicate]
  rw [show (if (if ('=' : Char) = '-' then '+' else '=') = '_' then '/'
      else if ('=' : Char) = '-' then '+' else '=') = ('=' : Char) from by decide]
  rw [List.map_map, List.map_map, List.map_map]
  have hpt : ∀ c ∈ core,
      ((((fun c => if c = '_' then '/' else c) ∘ (fun c => if c = '-' then '+' else c)) ∘
        (fun c => if c = '/' then '_' else c)) ∘ (fun c => if c = '+' then '-' else c)) c =
      id c := by
    intro c hc
    obtain ⟨x, hx, rfl⟩ := hmem c hc
    exact urlmap_roundtrip_char x hx
  rw [List.map_congr_left hpt, List.map_id, ← he,
    b64DecodeChars_encode (utf8Encode s) (utf8Encode_lt s)]
  exact utf8_roundTrip s

/-- C9: createJWT is deterministic: two invocations with the same signing
function (the same private key), the same serialized payload object and
the same certificate identity fields produce byte-identical tokens. -/
theorem createJWT_deterministic (sign sign2 : String → List Nat) (p p2 : String)
    (ci ci2 : CertificateInfo) (hs : sign = sign2) (hp : p = p2) (hc : ci = ci2) :
    createJWT sign p ci = createJWT sign2 p2 ci2 := by
  subst hs
  subst hp
  subst hc
  rfl

/-- C9 witness: the determinism theorem applied at concrete inputs. -/
theorem createJWT_deterministic_witness :
    createJWT zeroSigner "\x7b\x7d" sampleCertInfo =
      createJWT zeroSigner "\x7b\x7d" sampleCertInfo :=
  createJWT_deterministic zeroSigner zeroSigner "\x7b\x7d" "\x7b\x7d"
    sampleCertInfo sampleCertInfo rfl rfl rfl
